import Mathlib

/-!
Verification of the arrows puzzle program (Rust sources `src/game.rs` and
`src/solver.rs`) against its natural-language specification.

The Rust `Board` is `Array2D<Cell>`: a rectangular grid stored in row-major
order.  We embed it as a structure carrying the two dimensions and the
row-major list of cells; `Array2D` guarantees `cells.length = numRows *
numColumns`, which we carry as the predicate `Board.WF` where a proof needs
it.  Machine integers (`usize`) are embedded as `Nat`; `checked_sub` is
embedded explicitly.  Fallible Rust functions returning `Result` become
`Except`; functions that can panic (array indexing out of bounds,
`unimplemented!()`) are wrapped in `Option`, with `none` marking the panic.
-/

/-- The eight compass bearings (`game.rs`, `enum Direction`). -/
inductive Direction : Type
  | north
  | northeast
  | east
  | southeast
  | south
  | southwest
  | west
  | northwest
  deriving DecidableEq, Repr

/-- A cell either forwards to the next number along a bearing or is the
terminal cell (`game.rs`, `enum Pointer`). -/
inductive Pointer : Type
  | go (direction : Direction)
  | final
  deriving DecidableEq, Repr

/-- One grid cell: its pointer and an optional number (`game.rs`, `struct Cell`). -/
structure Cell : Type where
  pointer : Pointer
  number : Option Nat
  deriving DecidableEq, Repr

/-- Grid position, zero-based row and column (`solver.rs`, `struct Index`). -/
structure Index : Type where
  row : Nat
  column : Nat
  deriving DecidableEq, Repr

/-- The board: an `Array2D<Cell>` (`game.rs`, `type Board = Array2D<Cell>`),
embedded as dimensions plus the row-major cell list. -/
structure Board : Type where
  numRows : Nat
  numColumns : Nat
  cells : List Cell
  deriving DecidableEq, Repr

/-- Cell count of the board (`Array2D::num_elements`). -/
def Board.numElements (b : Board) : Nat :=
  b.numRows * b.numColumns

/-- Well-formedness guaranteed by `Array2D`: the cell list fills the grid. -/
def Board.WF (b : Board) : Prop :=
  b.cells.length = b.numElements

/-- Cell lookup at a position, `none` when out of bounds (`Array2D` indexing
panics there; callers in the source check bounds first). -/
def cellAt (b : Board) (i : Index) : Option Cell :=
  if i.row < b.numRows ∧ i.column < b.numColumns then
    b.cells.get? (i.row * b.numColumns + i.column)
  else
    none

/-- The number held at a position, if any. -/
def numberAt (b : Board) (i : Index) : Option Nat :=
  match cellAt b i with
  | some c => c.number
  | none => none

/-- The pointer at a position, if in bounds. -/
def pointerAt (b : Board) (i : Index) : Option Pointer :=
  match cellAt b i with
  | some c => some c.pointer
  | none => none

/-- Overwrite the number of the cell at a position (identity out of bounds). -/
def setCellNumber (b : Board) (i : Index) (n : Nat) : Board :=
  match cellAt b i with
  | none => b
  | some c =>
      { b with
        cells := b.cells.set (i.row * b.numColumns + i.column)
          { c with number := some n } }

/-- Embeds `usize::checked_sub`: `none` on underflow. -/
def checkedSub (x y : Nat) : Option Nat :=
  if x < y then none else some (x - y)

/-- Embeds `Index::step` from `solver.rs`: move one unit along a direction,
`none` when the row or column would underflow.  No upper-bound check. -/
def Index.step (i : Index) (direction : Direction) : Option Index := do
  let newRow ← match direction with
    | .northwest | .north | .northeast => checkedSub i.row 1
    | .southwest | .south | .southeast => some (i.row + 1)
    | _ => some i.row
  let newColumn ← match direction with
    | .northwest | .west | .southwest => checkedSub i.column 1
    | .northeast | .east | .southeast => some (i.column + 1)
    | _ => some i.column
  some ⟨newRow, newColumn⟩

/-- Embeds `abs_difference` from `solver.rs` (at `T = usize`). -/
def absDifference (x y : Nat) : Nat :=
  if x < y then y - x else x - y

/-- Embeds `get_direction` from `solver.rs`: the compass direction from
`index1` to `index2`, `none` when equal or not on a ray. -/
def getDirection (index1 index2 : Index) : Option Direction :=
  let rowDiff := absDifference index1.row index2.row
  let columnDiff := absDifference index1.column index2.column
  if rowDiff ≠ 0 ∧ columnDiff ≠ 0 ∧ rowDiff ≠ columnDiff then
    none
  else
    match compare index2.row index1.row, compare index2.column index1.column with
    | .lt, .lt => some .northwest
    | .lt, .eq => some .north
    | .lt, .gt => some .northeast
    | .eq, .lt => some .west
    | .eq, .eq => none
    | .eq, .gt => some .east
    | .gt, .lt => some .southwest
    | .gt, .eq => some .south
    | .gt, .gt => some .southeast

/-- Signed unit row delta of a direction (spec vocabulary: the north/south
component; north is negative). -/
def rowDelta (d : Direction) : Int :=
  match d with
  | .northwest | .north | .northeast => -1
  | .southwest | .south | .southeast => 1
  | .east | .west => 0

/-- Signed unit column delta of a direction (spec vocabulary: the east/west
component; east is positive). -/
def colDelta (d : Direction) : Int :=
  match d with
  | .northwest | .west | .southwest => -1
  | .northeast | .east | .southeast => 1
  | .north | .south => 0

/-- Iterated stepping: the position `n` steps along `d`, if every step stays
non-negative (spec vocabulary: the ray). -/
def stepN (d : Direction) : Nat → Index → Option Index
  | 0, i => some i
  | n + 1, i => (i.step d).bind (stepN d n)

/-- Transcription of the spec's description of `direction_between` (§4.2):
row and column deltas, `None` for equal positions or non-diagonal offsets,
otherwise the direction matching the sign pattern of the deltas. -/
def directionBetweenSpec (a b : Index) : Option Direction :=
  let dr : Int := (b.row : Int) - (a.row : Int)
  let dc : Int := (b.column : Int) - (a.column : Int)
  if dr = 0 ∧ dc = 0 then none
  else if dr ≠ 0 ∧ dc ≠ 0 ∧ dr.natAbs ≠ dc.natAbs then none
  else if dr < 0 ∧ dc < 0 then some .northwest
  else if dr < 0 ∧ dc = 0 then some .north
  else if dr < 0 ∧ 0 < dc then some .northeast
  else if dr = 0 ∧ dc < 0 then some .west
  else if dr = 0 ∧ 0 < dc then some .east
  else if 0 < dr ∧ dc < 0 then some .southwest
  else if 0 < dr ∧ dc = 0 then some .south
  else some .southeast

/-- Validation errors of `Game::new` (`game.rs`, `enum Error`). -/
inductive GameError : Type
  | emptyBoard
  | multipleOfNumber (n : Nat)
  | numberTooHigh (n : Nat)
  | noZeroAllowed
  | wrongFinalNumber (actual : Nat) (expected : Nat)
  | finalNumberWithDirection (n : Nat) (direction : Direction)
  deriving DecidableEq, Repr

/-- A validated board (`game.rs`, `struct Game`). -/
structure Game : Type where
  board : Board
  deriving DecidableEq, Repr

/-- Embeds `Cell::pointer_number`: the pointer paired with the number, when
the cell is numbered. -/
def Cell.pointerNumber (c : Cell) : Option (Pointer × Nat) :=
  c.number.map (fun n => (c.pointer, n))

/-- The validation loop of `Game::new`: walks the numbered cells in row-major
order, tracking the set of numbers seen so far. -/
def validateCells (maxNumber : Nat) : List Nat → List (Pointer × Nat) → Except GameError Unit
  | _, [] => .ok ()
  | seen, (pointer, number) :: rest =>
    match pointer with
    | .go direction =>
      if number = maxNumber then .error (.finalNumberWithDirection number direction)
      else if seen.contains number then .error (.multipleOfNumber number)
      else if maxNumber < number then .error (.numberTooHigh number)
      else validateCells maxNumber (number :: seen) rest
    | .final =>
      if number ≠ maxNumber then .error (.wrongFinalNumber number maxNumber)
      else if seen.contains number then .error (.multipleOfNumber number)
      else if maxNumber < number then .error (.numberTooHigh number)
      else validateCells maxNumber (number :: seen) rest

/-- Embeds `Game::new` from `game.rs`: reject an empty board, then validate
every numbered cell in row-major order. -/
def gameNew (b : Board) : Except GameError Game :=
  if b.numElements = 0 then .error .emptyBoard
  else
    match validateCells b.numElements [] (b.cells.filterMap Cell.pointerNumber) with
    | .error e => .error e
    | .ok () => .ok ⟨b⟩

/-- Solve-time errors (`solver.rs`, `enum Error`): `ImpossibleBoard` is the
spec's `NoSolution`, `Internal` the spec's `InternalInconsistency`. -/
inductive SolverError : Type
  | impossibleBoard
  | internal (msg : String)
  deriving DecidableEq, Repr

/-- The solver state (`solver.rs`, `struct Solver`): the working board and the
number-to-position anchor map.  The Rust `HashMap` is embedded as an
association list searched front to back. -/
structure Solver : Type where
  board : Board
  numToIndex : List (Nat × Index)
  deriving DecidableEq, Repr

/-- Association-list lookup, embedding `HashMap::get` / `contains_key`. -/
def lookupNum (n : Nat) : List (Nat × Index) → Option Index
  | [] => none
  | (m, i) :: rest => if m = n then some i else lookupNum n rest

/-- Row-major enumeration of the board with positions (`Array2D`'s
`enumerate_row_major`): the k-th cell of the row-major list sits at row
`k / numColumns`, column `k % numColumns`. -/
def enumerateRowMajor (b : Board) : List (Index × Cell) :=
  b.cells.enum.map (fun p => (⟨p.1 / b.numColumns, p.1 % b.numColumns⟩, p.2))

/-- Embeds `Solver::create_num_to_index`: collect `(number, index)` for every
numbered cell in row-major order.  Entries are consed to the front, so
`lookupNum` finds the last row-major occurrence, matching `HashMap`'s
last-insert-wins behaviour on duplicate keys. -/
def createNumToIndex (b : Board) : List (Nat × Index) :=
  (enumerateRowMajor b).foldl
    (fun acc p =>
      match p.2.number with
      | some n => (n, p.1) :: acc
      | none => acc)
    []

/-- Embeds `Solver::new`. -/
def solverNew (b : Board) : Solver :=
  ⟨b, createNumToIndex b⟩

/-- Embeds `Solver::get_empty_indices`: every unnumbered position in
row-major order. -/
def getEmptyIndices (b : Board) : List Index :=
  (enumerateRowMajor b).filterMap
    (fun p => if p.2.number.isSome then none else some p.1)

/-- Loop body of `Solver::get_empty_indices_in_direction`, with explicit fuel
standing in for the unbounded Rust `loop` (the loop always terminates within
`numRows + numColumns` iterations; see `getEmptyIndicesInDirection`). -/
def emptyIndicesScan (b : Board) (d : Direction) : Nat → Index → List Index
  | 0, _ => []
  | fuel + 1, i =>
    match i.step d with
    | none => []
    | some next =>
      if b.numRows ≤ next.row ∨ b.numColumns ≤ next.column then []
      else if (numberAt b next).isNone then next :: emptyIndicesScan b d fuel next
      else emptyIndicesScan b d fuel next

/-- Embeds `Solver::get_empty_indices_in_direction`: walk the ray from
`index` along `direction`, collecting unnumbered positions, returning at the
first underflow or out-of-bounds position.  Numbered cells are skipped,
not collected — but they do not end the walk. -/
def getEmptyIndicesInDirection (b : Board) (index : Index) (direction : Direction) : List Index :=
  emptyIndicesScan b direction (b.numRows + b.numColumns) index

/-- The `Internal` error message built at `solver.rs` line 65 from the
previous index (the Rust `format!` with `{:?}` of `Index`). -/
def finalErrMsg (i : Index) : String :=
  "Previous index Index \x7b row: " ++ toString i.row ++ ", column: "
    ++ toString i.column ++ " \x7d was final"

/-- Embeds `Solver::get_possible_indices_from_prev`.  The outer `Option`
models the panic of `self.board[prev_index.row_column()]` when the anchored
index is out of bounds (`none`); the source otherwise returns a `Result`. -/
def getPossibleIndicesFromPrev (s : Solver) (prevNumber : Nat) :
    Option (Except SolverError (List Index)) :=
  match lookupNum prevNumber s.numToIndex with
  | none => some (.ok (getEmptyIndices s.board))
  | some prevIndex =>
    match cellAt s.board prevIndex with
    | none => none
    | some cell =>
      match cell.pointer with
      | .go direction =>
          some (.ok (getEmptyIndicesInDirection s.board prevIndex direction))
      | .final => some (.error (.internal (finalErrMsg prevIndex)))

/-- Embeds `Solver::solve_internal` as written in the source: return `Ok`
as soon as `number >= num_elements` (note: `>=`, not `>`), skip numbers that
already have an anchor, and otherwise hit `unimplemented!()` — a panic,
modelled as `none`.  The fuel stands in for the recursion depth; every use
below supplies enough for it never to run out. -/
def solveInternalSrc : Nat → Solver → Nat → Option (Except SolverError Unit)
  | fuel, s, number =>
    if s.board.numElements ≤ number then some (.ok ())
    else if (lookupNum number s.numToIndex).isSome then
      match fuel with
      | 0 => none
      | fuel + 1 => solveInternalSrc fuel s (number + 1)
    else none

/-- Embeds `Solver::solve` as written in the source: run `solve_internal`
from number 1 and return the (never mutated on implemented paths) board. -/
def solveSrc (b : Board) : Option (Except SolverError Board) :=
  match solveInternalSrc (b.numElements + 1) (solverNew b) 1 with
  | none => none
  | some (.error e) => some (.error e)
  | some (.ok ()) => some (.ok b)

/-- Modelled from the spec: the candidate computation used by the recursive
assignment procedure (§4.3 step 3).  It wraps the source's
`get_possible_indices_from_prev` at the predecessor `number - 1`; the panic
case (anchored index out of bounds), which the spec folds into its defensive
`InternalInconsistency` taxonomy (§4.3 failure semantics), becomes an
`internal` error. -/
def candidatesSpec (s : Solver) (number : Nat) : Except SolverError (List Index) :=
  match getPossibleIndicesFromPrev s (number - 1) with
  | some r => r
  | none => .error (.internal "anchor out of bounds")

/-- Modelled from the spec: the final-number restriction (§4.3 step 3): when
`number` is the cell count, keep only candidates whose pointer is `Final`. -/
def finalFilter (s : Solver) (number : Nat) (cands : List Index) : List Index :=
  if number = s.board.numElements then
    cands.filter (fun i => pointerAt s.board i = some .final)
  else cands

/-- Modelled from the spec: tentatively assign `number` at a candidate
position and record the anchor (§4.3 step 4).  The functional state makes
the spec's undo-on-failure implicit. -/
def place (s : Solver) (number : Nat) (i : Index) : Solver :=
  ⟨setCellNumber s.board i number, (number, i) :: s.numToIndex⟩

/-- Modelled from the spec: try the candidates in order (§4.3 steps 4-5):
recurse after each tentative assignment, propagate the first success or any
internal error, and fail once the candidates are exhausted. -/
def tryEach (next : Nat → Solver → Except SolverError (Option Solver)) (number : Nat)
    (s : Solver) : List Index → Except SolverError (Option Solver)
  | [] => .ok none
  | i :: rest =>
    match next (number + 1) (place s number i) with
    | .error e => .error e
    | .ok (some done) => .ok (some done)
    | .ok none => tryEach next number s rest

/-- Modelled from the spec: one unfolding of the recursive procedure
`assign(number)` (§4.3): succeed past the cell count, skip anchored clue
numbers, otherwise compute, restrict and try the candidates. -/
def assignStep (next : Nat → Solver → Except SolverError (Option Solver)) (number : Nat)
    (s : Solver) : Except SolverError (Option Solver) :=
  if s.board.numElements < number then .ok (some s)
  else if (lookupNum number s.numToIndex).isSome then next (number + 1) s
  else
    match candidatesSpec s number with
    | .error e => .error e
    | .ok cands => tryEach next number s (finalFilter s number cands)

/-- Modelled from the spec: the recursive assignment procedure of §4.3,
missing from the source (`Solver::solve_internal` is `unimplemented!()` after
computing the candidates).  The base case follows the spec's step 1
(`number` strictly exceeding the cell count; the source's `>=` comparison is
treated separately as a divergence).  Fuel bounds the recursion depth; the
top-level call supplies `numElements + 1`, which the spec's step 1 makes
sufficient. -/
def assignSpec : Nat → Nat → Solver → Except SolverError (Option Solver)
  | 0, _, _ => .ok none
  | fuel + 1, number, s => assignStep (fun k t => assignSpec fuel k t) number s

/-- Modelled from the spec: the public `solve` operation (§4.3): run the
assignment procedure from number 1 on the freshly seeded solver and return
the completed board, `ImpossibleBoard` (the spec's `NoSolution`) when the
search space is exhausted. -/
def solveSpec (b : Board) : Except SolverError Board :=
  match assignSpec (b.numElements + 1) 1 (solverNew b) with
  | .error e => .error e
  | .ok (some s) => .ok s.board
  | .ok none => .error .impossibleBoard

/-- The 3×3 clue board used throughout the source's tests (`solver.rs`,
`test_solver_new` and friends): clues 1, 5, 4 and the terminal 9. -/
def testBoard : Board :=
  ⟨3, 3,
    [⟨.go .east, some 1⟩, ⟨.go .east, none⟩, ⟨.go .south, none⟩,
     ⟨.go .southeast, none⟩, ⟨.go .west, some 5⟩, ⟨.go .west, some 4⟩,
     ⟨.go .east, none⟩, ⟨.go .west, none⟩, ⟨.final, some 9⟩]⟩

/-- The spec's scenario 5 board: the test board with the arrow at (0, 0)
turned north, off the board edge, so number 2 has no candidate. -/
def noSolutionBoard : Board :=
  ⟨3, 3,
    [⟨.go .north, some 1⟩, ⟨.go .east, none⟩, ⟨.go .south, none⟩,
     ⟨.go .southeast, none⟩, ⟨.go .west, some 5⟩, ⟨.go .west, some 4⟩,
     ⟨.go .east, none⟩, ⟨.go .west, none⟩, ⟨.final, some 9⟩]⟩

/-- A 2×2 board accepted by `Game::new`, with clues 1, 2, 3 placed
arrow-consistently and the terminal cell unnumbered: its unique completion
puts 4 on the terminal cell. -/
def almostFullBoard : Board :=
  ⟨2, 2,
    [⟨.go .south, some 1⟩, ⟨.final, none⟩,
     ⟨.go .east, some 2⟩, ⟨.go .north, some 3⟩]⟩

/-- A 1×1 board whose single cell is terminal and unnumbered. -/
def loneFinalBoard : Board :=
  ⟨1, 1, [⟨.final, none⟩]⟩

/-- A 1×1 board whose single cell is terminal and numbered 1: a complete
valid permutation. -/
def solvedOneBoard : Board :=
  ⟨1, 1, [⟨.final, some 1⟩]⟩

lemma step_some_iff (i : Index) (d : Direction) (j : Index) :
    i.step d = some j ↔
      ((j.row : Int) = (i.row : Int) + rowDelta d ∧
       (j.column : Int) = (i.column : Int) + colDelta d) := by
  obtain ⟨jr, jc⟩ := j
  cases d <;>
    simp only [Index.step, checkedSub, rowDelta, colDelta, bind, Option.bind] <;>
    (try split) <;> (try split) <;>
    simp_all [Index.mk.injEq] <;>
    (try (constructor <;> rintro ⟨h1, h2⟩)) <;>
    omega

lemma step_none_iff (i : Index) (d : Direction) :
    i.step d = none ↔
      ((i.row : Int) + rowDelta d < 0 ∨ (i.column : Int) + colDelta d < 0) := by
  cases d <;>
    simp only [Index.step, checkedSub, rowDelta, colDelta, bind, Option.bind] <;>
    (try split) <;> (try split) <;>
    simp_all <;>
    omega

lemma getDirection_eq_spec (a b : Index) : getDirection a b = directionBetweenSpec a b := by
  obtain ⟨r1, c1⟩ := a
  obtain ⟨r2, c2⟩ := b
  simp only [getDirection, directionBetweenSpec, absDifference]
  rcases hr : compare r2 r1 with _ | _ | _ <;>
    rcases hc : compare c2 c1 with _ | _ | _ <;>
    simp only [hr, hc] <;>
    simp only [Nat.compare_eq_lt, Nat.compare_eq_eq, Nat.compare_eq_gt] at hr hc
  · by_cases hdiag : r1 - r2 = c1 - c2
    · rw [if_neg (show ¬ r1 < r2 by omega), if_neg (show ¬ c1 < c2 by omega),
        if_neg (show ¬(r1 - r2 ≠ 0 ∧ c1 - c2 ≠ 0 ∧ r1 - r2 ≠ c1 - c2) by omega),
        if_neg (show ¬((r2:Int) - r1 = 0 ∧ (c2:Int) - c1 = 0) by omega),
        if_neg (show ¬((r2:Int) - r1 ≠ 0 ∧ (c2:Int) - c1 ≠ 0 ∧
          ((r2:Int) - r1).natAbs ≠ ((c2:Int) - c1).natAbs) by omega),
        if_pos (show (r2:Int) - r1 < 0 ∧ (c2:Int) - c1 < 0 by omega)]
    · rw [if_neg (show ¬ r1 < r2 by omega), if_neg (show ¬ c1 < c2 by omega),
        if_pos (show r1 - r2 ≠ 0 ∧ c1 - c2 ≠ 0 ∧ r1 - r2 ≠ c1 - c2 by omega),
        if_neg (show ¬((r2:Int) - r1 = 0 ∧ (c2:Int) - c1 = 0) by omega),
        if_pos (show (r2:Int) - r1 ≠ 0 ∧ (c2:Int) - c1 ≠ 0 ∧
          ((r2:Int) - r1).natAbs ≠ ((c2:Int) - c1).natAbs by omega)]
  · rw [if_neg (show ¬ r1 < r2 by omega), if_neg (show ¬ c1 < c2 by omega),
      if_neg (show ¬(r1 - r2 ≠ 0 ∧ c1 - c2 ≠ 0 ∧ r1 - r2 ≠ c1 - c2) by omega),
      if_neg (show ¬((r2:Int) - r1 = 0 ∧ (c2:Int) - c1 = 0) by omega),
      if_neg (show ¬((r2:Int) - r1 ≠ 0 ∧ (c2:Int) - c1 ≠ 0 ∧
        ((r2:Int) - r1).natAbs ≠ ((c2:Int) - c1).natAbs) by omega),
      if_neg (show ¬((r2:Int) - r1 < 0 ∧ (c2:Int) - c1 < 0) by omega),
      if_pos (show (r2:Int) - r1 < 0 ∧ (c2:Int) - c1 = 0 by omega)]
  · by_cases hdiag : r1 - r2 = c2 - c1
    · rw [if_neg (show ¬ r1 < r2 by omega), if_pos (show c1 < c2 by omega),
        if_neg (show ¬(r1 - r2 ≠ 0 ∧ c2 - c1 ≠ 0 ∧ r1 - r2 ≠ c2 - c1) by omega),
        if_neg (show ¬((r2:Int) - r1 = 0 ∧ (c2:Int) - c1 = 0) by omega),
        if_neg (show ¬((r2:Int) - r1 ≠ 0 ∧ (c2:Int) - c1 ≠ 0 ∧
          ((r2:Int) - r1).natAbs ≠ ((c2:Int) - c1).natAbs) by omega),
        if_neg (show ¬((r2:Int) - r1 < 0 ∧ (c2:Int) - c1 < 0) by omega),
        if_neg (show ¬((r2:Int) - r1 < 0 ∧ (c2:Int) - c1 = 0) by omega),
        if_pos (show (r2:Int) - r1 < 0 ∧ 0 < (c2:Int) - c1 by omega)]
    · rw [if_neg (show ¬ r1 < r2 by omega), if_pos (show c1 < c2 by omega),
        if_pos (show r1 - r2 ≠ 0 ∧ c2 - c1 ≠ 0 ∧ r1 - r2 ≠ c2 - c1 by omega),
        if_neg (show ¬((r2:Int) - r1 = 0 ∧ (c2:Int) - c1 = 0) by omega),
        if_pos (show (r2:Int) - r1 ≠ 0 ∧ (c2:Int) - c1 ≠ 0 ∧
          ((r2:Int) - r1).natAbs ≠ ((c2:Int) - c1).natAbs by omega)]
  · rw [if_neg (show ¬ r1 < r2 by omega), if_neg (show ¬ c1 < c2 by omega),
      if_neg (show ¬(r1 - r2 ≠ 0 ∧ c1 - c2 ≠ 0 ∧ r1 - r2 ≠ c1 - c2) by omega),
      if_neg (show ¬((r2:Int) - r1 = 0 ∧ (c2:Int) - c1 = 0) by omega),
      if_neg (show ¬((r2:Int) - r1 ≠ 0 ∧ (c2:Int) - c1 ≠ 0 ∧
        ((r2:Int) - r1).natAbs ≠ ((c2:Int) - c1).natAbs) by omega),
      if_neg (show ¬((r2:Int) - r1 < 0 ∧ (c2:Int) - c1 < 0) by omega),
      if_neg (show ¬((r2:Int) - r1 < 0 ∧ (c2:Int) - c1 = 0) by omega),
      if_neg (show ¬((r2:Int) - r1 < 0 ∧ 0 < (c2:Int) - c1) by omega),
      if_pos (show (r2:Int) - r1 = 0 ∧ (c2:Int) - c1 < 0 by omega)]
  · rw [if_neg (show ¬ r1 < r2 by omega), if_neg (show ¬ c1 < c2 by omega),
      if_neg (show ¬(r1 - r2 ≠ 0 ∧ c1 - c2 ≠ 0 ∧ r1 - r2 ≠ c1 - c2) by omega),
      if_pos (show (r2:Int) - r1 = 0 ∧ (c2:Int) - c1 = 0 by omega)]
  · rw [if_neg (show ¬ r1 < r2 by omega), if_pos (show c1 < c2 by omega),
      if_neg (show ¬(r1 - r2 ≠ 0 ∧ c2 - c1 ≠ 0 ∧ r1 - r2 ≠ c2 - c1) by omega),
      if_neg (show ¬((r2:Int) - r1 = 0 ∧ (c2:Int) - c1 = 0) by omega),
      if_neg (show ¬((r2:Int) - r1 ≠ 0 ∧ (c2:Int) - c1 ≠ 0 ∧
        ((r2:Int) - r1).natAbs ≠ ((c2:Int) - c1).natAbs) by omega),
      if_neg (show ¬((r2:Int) - r1 < 0 ∧ (c2:Int) - c1 < 0) by omega),
      if_neg (show ¬((r2:Int) - r1 < 0 ∧ (c2:Int) - c1 = 0) by omega),
      if_neg (show ¬((r2:Int) - r1 < 0 ∧ 0 < (c2:Int) - c1) by omega),
      if_neg (show ¬((r2:Int) - r1 = 0 ∧ (c2:Int) - c1 < 0) by omega),
      if_pos (show (r2:Int) - r1 = 0 ∧ 0 < (c2:Int) - c1 by omega)]
  · by_cases hdiag : r2 - r1 = c1 - c2
    · rw [if_pos (show r1 < r2 by omega), if_neg (show ¬ c1 < c2 by omega),
        if_neg (show ¬(r2 - r1 ≠ 0 ∧ c1 - c2 ≠ 0 ∧ r2 - r1 ≠ c1 - c2) by omega),
        if_neg (show ¬((r2:Int) - r1 = 0 ∧ (c2:Int) - c1 = 0) by omega),
        if_neg (show ¬((r2:Int) - r1 ≠ 0 ∧ (c2:Int) - c1 ≠ 0 ∧
          ((r2:Int) - r1).natAbs ≠ ((c2:Int) - c1).natAbs) by omega),
        if_neg (show ¬((r2:Int) - r1 < 0 ∧ (c2:Int) - c1 < 0) by omega),
        if_neg (show ¬((r2:Int) - r1 < 0 ∧ (c2:Int) - c1 = 0) by omega),
        if_neg (show ¬((r2:Int) - r1 < 0 ∧ 0 < (c2:Int) - c1) by omega),
        if_neg (show ¬((r2:Int) - r1 = 0 ∧ (c2:Int) - c1 < 0) by omega),
        if_neg (show ¬((r2:Int) - r1 = 0 ∧ 0 < (c2:Int) - c1) by omega),
        if_pos (show 0 < (r2:Int) - r1 ∧ (c2:Int) - c1 < 0 by omega)]
    · rw [if_pos (show r1 < r2 by omega), if_neg (show ¬ c1 < c2 by omega),
        if_pos (show r2 - r1 ≠ 0 ∧ c1 - c2 ≠ 0 ∧ r2 - r1 ≠ c1 - c2 by omega),
        if_neg (show ¬((r2:Int) - r1 = 0 ∧ (c2:Int) - c1 = 0) by omega),
        if_pos (show (r2:Int) - r1 ≠ 0 ∧ (c2:Int) - c1 ≠ 0 ∧
          ((r2:Int) - r1).natAbs ≠ ((c2:Int) - c1).natAbs by omega)]
  · rw [if_pos (show r1 < r2 by omega), if_neg (show ¬ c1 < c2 by omega),
      if_neg (show ¬(r2 - r1 ≠ 0 ∧ c1 - c2 ≠ 0 ∧ r2 - r1 ≠ c1 - c2) by omega),
      if_neg (show ¬((r2:Int) - r1 = 0 ∧ (c2:Int) - c1 = 0) by omega),
      if_neg (show ¬((r2:Int) - r1 ≠ 0 ∧ (c2:Int) - c1 ≠ 0 ∧
        ((r2:Int) - r1).natAbs ≠ ((c2:Int) - c1).natAbs) by omega),
      if_neg (show ¬((r2:Int) - r1 < 0 ∧ (c2:Int) - c1 < 0) by omega),
      if_neg (show ¬((r2:Int) - r1 < 0 ∧ (c2:Int) - c1 = 0) by omega),
      if_neg (show ¬((r2:Int) - r1 < 0 ∧ 0 < (c2:Int) - c1) by omega),
      if_neg (show ¬((r2:Int) - r1 = 0 ∧ (c2:Int) - c1 < 0) by omega),
      if_neg (show ¬((r2:Int) - r1 = 0 ∧ 0 < (c2:Int) - c1) by omega),
      if_neg (show ¬(0 < (r2:Int) - r1 ∧ (c2:Int) - c1 < 0) by omega),
      if_pos (show 0 < (r2:Int) - r1 ∧ (c2:Int) - c1 = 0 by omega)]
  · by_cases hdiag : r2 - r1 = c2 - c1
    · rw [if_pos (show r1 < r2 by omega), if_pos (show c1 < c2 by omega),
        if_neg (show ¬(r2 - r1 ≠ 0 ∧ c2 - c1 ≠ 0 ∧ r2 - r1 ≠ c2 - c1) by omega),
        if_neg (show ¬((r2:Int) - r1 = 0 ∧ (c2:Int) - c1 = 0) by omega),
        if_neg (show ¬((r2:Int) - r1 ≠ 0 ∧ (c2:Int) - c1 ≠ 0 ∧
          ((r2:Int) - r1).natAbs ≠ ((c2:Int) - c1).natAbs) by omega),
        if_neg (show ¬((r2:Int) - r1 < 0 ∧ (c2:Int) - c1 < 0) by omega),
        if_neg (show ¬((r2:Int) - r1 < 0 ∧ (c2:Int) - c1 = 0) by omega),
        if_neg (show ¬((r2:Int) - r1 < 0 ∧ 0 < (c2:Int) - c1) by omega),
        if_neg (show ¬((r2:Int) - r1 = 0 ∧ (c2:Int) - c1 < 0) by omega),
        if_neg (show ¬((r2:Int) - r1 = 0 ∧ 0 < (c2:Int) - c1) by omega),
        if_neg (show ¬(0 < (r2:Int) - r1 ∧ (c2:Int) - c1 < 0) by omega),
        if_neg (show ¬(0 < (r2:Int) - r1 ∧ (c2:Int) - c1 = 0) by omega)]
    · rw [if_pos (show r1 < r2 by omega), if_pos (show c1 < c2 by omega),
        if_pos (show r2 - r1 ≠ 0 ∧ c2 - c1 ≠ 0 ∧ r2 - r1 ≠ c2 - c1 by omega),
        if_neg (show ¬((r2:Int) - r1 = 0 ∧ (c2:Int) - c1 = 0) by omega),
        if_pos (show (r2:Int) - r1 ≠ 0 ∧ (c2:Int) - c1 ≠ 0 ∧
          ((r2:Int) - r1).natAbs ≠ ((c2:Int) - c1).natAbs by omega)]

lemma directionBetweenSpec_step (i j : Index) (d : Direction) (h : i.step d = some j) :
    directionBetweenSpec i j = some d := by
  have hs := (step_some_iff i d j).mp h
  obtain ⟨hr, hc⟩ := hs
  cases d <;>
    simp only [rowDelta, colDelta] at hr hc <;>
    simp only [directionBetweenSpec] <;>
    norm_num [hr, hc]

/-- C7: `get_direction` returns `None` exactly when the two positions are
equal or their row and column deltas are both non-zero with unequal
absolute values, and otherwise the unique compass direction matching the
sign pattern of the deltas: it agrees with the spec's description
`directionBetweenSpec` at every pair of positions. -/
theorem getDirection_matches_spec (a b : Index) :
    getDirection a b = directionBetweenSpec a b :=
  getDirection_eq_spec a b

/-- C8: `Index::step` returns exactly the neighbour one unit along the
direction — `some j` precisely when `j` sits at the signed unit deltas of
the direction — and returns `none` exactly when the move would make the row
or column negative; no bottom or right bound is checked. -/
theorem step_characterization (i : Index) (d : Direction) :
    (∀ j : Index, i.step d = some j ↔
      ((j.row : Int) = (i.row : Int) + rowDelta d ∧
       (j.column : Int) = (i.column : Int) + colDelta d)) ∧
    (i.step d = none ↔
      ((i.row : Int) + rowDelta d < 0 ∨ (i.column : Int) + colDelta d < 0)) :=
  ⟨fun j => step_some_iff i d j, step_none_iff i d⟩

/-- C10: a single step along a direction is always recognised as lying in
that direction: if `step(p, d)` returns `Some q` then
`get_direction(p, q)` returns `Some d`. -/
theorem step_getDirection_roundtrip (i j : Index) (d : Direction)
    (h : i.step d = some j) : getDirection i j = some d := by
  rw [getDirection_eq_spec]
  exact directionBetweenSpec_step i j d h

/-- Witness for C10: stepping north from (1, 1) reaches (0, 1), and
`get_direction` recognises the pair as north. -/
theorem step_getDirection_roundtrip_witness :
    getDirection ⟨1, 1⟩ ⟨0, 1⟩ = some .north :=
  step_getDirection_roundtrip ⟨1, 1⟩ ⟨0, 1⟩ .north rfl

/-- C9: whenever the anchor of the predecessor number refers to a cell
whose pointer is `Final`, `get_possible_indices_from_prev` fails with the
internal-inconsistency error instead of producing candidates. -/
theorem getPossibleIndicesFromPrev_final_internal (s : Solver) (n : Nat) (i : Index) (c : Cell)
    (hl : lookupNum n s.numToIndex = some i) (hc : cellAt s.board i = some c)
    (hp : c.pointer = .final) :
    getPossibleIndicesFromPrev s n = some (.error (.internal (finalErrMsg i))) := by
  simp only [getPossibleIndicesFromPrev, hl, hc, hp]

/-- Witness for C9: on the solved 1×1 board, where number 1 anchors the
terminal cell, the candidate computation for its successor fails with the
internal error. -/
theorem getPossibleIndicesFromPrev_final_internal_witness :
    getPossibleIndicesFromPrev (solverNew solvedOneBoard) 1 =
      some (.error (.internal (finalErrMsg ⟨0, 0⟩))) :=
  getPossibleIndicesFromPrev_final_internal (solverNew solvedOneBoard) 1 ⟨0, 0⟩
    ⟨.final, some 1⟩ rfl rfl rfl

lemma validateCells_mem (maxNumber : Nat) (l : List (Pointer × Nat)) :
    ∀ seen : List Nat, validateCells maxNumber seen l = .ok () →
      ∀ p n, (p, n) ∈ l → (n = maxNumber ↔ p = .final) := by
  induction l with
  | nil =>
    intro seen h p n hm
    simp at hm
  | cons head tail ih =>
    intro seen h p n hm
    obtain ⟨p0, n0⟩ := head
    rcases List.mem_cons.mp hm with hm2 | hm2
    · rw [Prod.mk.injEq] at hm2
      obtain ⟨hp, hn⟩ := hm2
      subst hp
      subst hn
      cases p with
      | go d =>
        simp only [validateCells] at h
        split_ifs at h with h1
        constructor
        · intro he
          exact absurd he h1
        · intro he
          exact absurd he (by simp)
      | final =>
        simp only [validateCells] at h
        split_ifs at h with h1
        push_neg at h1
        simp [h1]
    · cases p0 with
      | go d =>
        simp only [validateCells] at h
        split_ifs at h
        exact ih (n0 :: seen) h p n hm2
      | final =>
        simp only [validateCells] at h
        split_ifs at h
        exact ih (n0 :: seen) h p n hm2

/-- C5, amended: on every board accepted by `Game::new`, a numbered cell
holds the maximum number (the cell count) exactly when its pointer is
`Final`.  (The validator never inspects unnumbered cells, so a `Final` cell
without a number is accepted; the original claim fails there.) -/
theorem gameNew_numbered_max_iff_final (b : Board) (g : Game) (h : gameNew b = .ok g) :
    ∀ c ∈ b.cells, ∀ n, c.number = some n → (n = b.numElements ↔ c.pointer = .final) := by
  intro c hc n hn
  unfold gameNew at h
  split_ifs at h
  rcases hv : validateCells b.numElements [] (b.cells.filterMap Cell.pointerNumber) with e | u
  · rw [hv] at h
    exact Except.noConfusion h
  · cases u
    exact validateCells_mem b.numElements (b.cells.filterMap Cell.pointerNumber) [] hv
      c.pointer n (List.mem_filterMap.mpr ⟨c, hc, by simp [Cell.pointerNumber, hn]⟩)

/-- Witness for C5's amended theorem: the solved 1×1 board is accepted, and
its single numbered cell holds 1 = cell count with a `Final` pointer. -/
theorem gameNew_numbered_max_iff_final_witness :
    (1 = solvedOneBoard.numElements ↔ (Cell.mk .final (some 1)).pointer = .final) :=
  gameNew_numbered_max_iff_final solvedOneBoard ⟨solvedOneBoard⟩ rfl
    ⟨.final, some 1⟩ (by decide) 1 rfl

/-- Counterexample to C5 as stated: `Game::new` accepts the 1×1 board whose
single cell has pointer `Final` and no number, so not every `Final` cell of
an accepted board holds the cell count. -/
theorem gameNew_accepts_unnumbered_final :
    gameNew loneFinalBoard = .ok ⟨loneFinalBoard⟩ ∧
      ¬ (∀ c ∈ loneFinalBoard.cells, c.pointer = .final →
          c.number = some loneFinalBoard.numElements) :=
  ⟨rfl, by decide⟩

lemma createNumToIndex_rev (l : List (Index × Cell)) (acc : List (Nat × Index)) :
    l.foldl
      (fun acc p =>
        match p.2.number with
        | some n => (n, p.1) :: acc
        | none => acc)
      acc =
      (l.filterMap (fun p => p.2.number.map (fun n => (n, p.1)))).reverse ++ acc := by
  induction l generalizing acc with
  | nil => simp
  | cons head tail ih =>
    obtain ⟨i, c⟩ := head
    rcases hn : c.number with _ | n <;>
      simp [List.filterMap_cons, hn, ih] 

lemma lookupNum_isSome_iff (n : Nat) (l : List (Nat × Index)) :
    (lookupNum n l).isSome ↔ ∃ i, (n, i) ∈ l := by
  induction l with
  | nil => simp [lookupNum]
  | cons head tail ih =>
    obtain ⟨m, i⟩ := head
    by_cases hm : m = n
    · subst hm
      simp [lookupNum]
    · simp only [lookupNum, if_neg hm, ih]
      constructor
      · rintro ⟨i2, hi2⟩
        exact ⟨i2, List.mem_cons_of_mem _ hi2⟩
      · rintro ⟨i2, hi2⟩
        rcases List.mem_cons.mp hi2 with h2 | h2
        · rw [Prod.mk.injEq] at h2
          exact absurd h2.1.symm hm
        · exact ⟨i2, h2⟩

lemma lookupNum_createNumToIndex_isSome (b : Board) (m : Nat)
    (hm : m ∈ b.cells.filterMap Cell.number) :
    (lookupNum m (createNumToIndex b)).isSome := by
  rw [lookupNum_isSome_iff]
  obtain ⟨c, hc, hcm⟩ := List.mem_filterMap.mp hm
  obtain ⟨⟨k, hk⟩, hget⟩ := List.get_of_mem hc
  refine ⟨⟨k / b.numColumns, k % b.numColumns⟩, ?_⟩
  unfold createNumToIndex
  rw [createNumToIndex_rev]
  rw [List.append_nil, List.mem_reverse]
  apply List.mem_filterMap.mpr
  refine ⟨(⟨k / b.numColumns, k % b.numColumns⟩, c), ?_, by simp [hcm]⟩
  unfold enumerateRowMajor
  apply List.mem_map.mpr
  refine ⟨(k, c), ?_, rfl⟩
  apply List.mk_mem_enum_iff_getElem?.mpr
  rw [List.getElem?_eq_getElem hk]
  simp [← hget]

lemma solveInternalSrc_skips (b : Board) (fuel : Nat) :
    ∀ k : Nat, 1 ≤ k → b.numElements + 1 ≤ fuel + k →
      (∀ m, k ≤ m → m < b.numElements → (lookupNum m (createNumToIndex b)).isSome) →
      solveInternalSrc fuel (solverNew b) k = some (.ok ()) := by
  induction fuel with
  | zero =>
    intro k hk hfuel hall
    unfold solveInternalSrc
    simp only [solverNew]
    rw [if_pos (by omega)]
  | succ fuel ih =>
    intro k hk hfuel hall
    unfold solveInternalSrc
    simp only [solverNew]
    by_cases hbase : b.numElements ≤ k
    · rw [if_pos hbase]
    · rw [if_neg hbase]
      have hsome : (lookupNum k (createNumToIndex b)).isSome :=
        hall k le_rfl (by omega)
      simp only [hsome, if_true]
      exact ih (k + 1) (by omega) (by omega) (fun m hm1 hm2 => hall m (by omega) hm2)

/-- C6: a board in which every cell already carries a number forming a
complete permutation of 1..cellCount is returned unchanged by `solve`:
the clue-skip path of `solve_internal` walks every number without
branching and never mutates the board. -/
theorem solveSrc_prenumbered_unchanged (b : Board)
    (hfull : ∀ c ∈ b.cells, c.number.isSome)
    (hperm : (b.cells.filterMap Cell.number).Perm (List.range' 1 b.numElements)) :
    solveSrc b = some (.ok b) := by
  unfold solveSrc
  rw [solveInternalSrc_skips b (b.numElements + 1) 1 le_rfl (by omega) ?hall]
  case hall =>
    intro m hm1 hm2
    apply lookupNum_createNumToIndex_isSome
    apply hperm.mem_iff.mpr
    simp only [List.mem_range']
    exact ⟨m - 1, by omega, by omega⟩

/-- Witness for C6: the solved 1×1 board comes back unchanged. -/
theorem solveSrc_prenumbered_unchanged_witness :
    solveSrc solvedOneBoard = some (.ok solvedOneBoard) :=
  solveSrc_prenumbered_unchanged solvedOneBoard (by decide) (by decide)

/-- C1 (code-bug evaluation): `solve` as written returns successfully on the
`Game::new`-accepted 2×2 board with clues 1, 2, 3 and an unnumbered terminal
cell, yet the returned board's numbers are [1, 2, 3] — the number 4 =
cellCount is never placed, so the multiset of numbers is not {1, ..., 4}.
The base case of `solve_internal` compares with `>=` and the search loop is
`unimplemented!()`, so the final number is never assigned. -/
theorem solveSrc_success_misses_number :
    solveSrc almostFullBoard = some (.ok almostFullBoard) ∧
      gameNew almostFullBoard = .ok ⟨almostFullBoard⟩ ∧
      almostFullBoard.numElements = 4 ∧
      almostFullBoard.cells.filterMap Cell.number = [1, 2, 3] ∧
      ¬ (almostFullBoard.cells.filterMap Cell.number).Perm
          (List.range' 1 almostFullBoard.numElements) :=
  ⟨rfl, rfl, rfl, rfl, by decide⟩

/-- C4 (code-bug evaluation): the source's base case fires already at
`number = cellCount` (it compares `number >= num_elements`): on the 2×2
board, `solve_internal` at number 4 = cellCount returns success
immediately even though no cell holds 4, instead of proceeding to place
the final number. -/
theorem solveInternalSrc_succeeds_at_cell_count :
    almostFullBoard.numElements = 4 ∧
      solveInternalSrc (almostFullBoard.numElements + 1) (solverNew almostFullBoard) 4 =
        some (.ok ()) ∧
      (∀ c ∈ almostFullBoard.cells, c.number ≠ some 4) :=
  ⟨rfl, rfl, by decide⟩

lemma rowDelta_cases (d : Direction) : rowDelta d = -1 ∨ rowDelta d = 0 ∨ rowDelta d = 1 := by
  cases d <;> simp [rowDelta]

lemma colDelta_cases (d : Direction) : colDelta d = -1 ∨ colDelta d = 0 ∨ colDelta d = 1 := by
  cases d <;> simp [colDelta]

lemma delta_ne_zero (d : Direction) : rowDelta d ≠ 0 ∨ colDelta d ≠ 0 := by
  cases d <;> simp [rowDelta, colDelta]

lemma stepN_coords (d : Direction) :
    ∀ (n : Nat) (i j : Index), stepN d n i = some j →
      (j.row : Int) = i.row + n * rowDelta d ∧
        (j.column : Int) = i.column + n * colDelta d := by
  intro n
  induction n with
  | zero =>
    intro i j h
    simp only [stepN, Option.some.injEq] at h
    subst h
    simp
  | succ n ih =>
    intro i j h
    simp only [stepN] at h
    rcases hs : i.step d with _ | m
    · rw [hs] at h
      simp at h
    · rw [hs] at h
      simp only [Option.some_bind] at h
      obtain ⟨hm1, hm2⟩ := (step_some_iff i d m).mp hs
      obtain ⟨hj1, hj2⟩ := ih m j h
      constructor
      · rw [hj1, hm1]
        push_cast
        ring
      · rw [hj2, hm2]
        push_cast
        ring

lemma scan_mem_forward (b : Board) (d : Direction) :
    ∀ (fuel : Nat) (i j : Index), j ∈ emptyIndicesScan b d fuel i →
      (∃ n : Nat, stepN d (n + 1) i = some j) ∧
        j.row < b.numRows ∧ j.column < b.numColumns ∧ numberAt b j = none := by
  intro fuel
  induction fuel with
  | zero =>
    intro i j hj
    simp [emptyIndicesScan] at hj
  | succ fuel ih =>
    intro i j hj
    simp only [emptyIndicesScan] at hj
    rcases hs : i.step d with _ | m
    · rw [hs] at hj
      simp at hj
    · simp only [hs] at hj
      by_cases hbound : b.numRows ≤ m.row ∨ b.numColumns ≤ m.column
      · rw [if_pos hbound] at hj
        simp at hj
      · rw [if_neg hbound] at hj
        push_neg at hbound
        by_cases hempty : (numberAt b m).isNone
        · rw [if_pos hempty] at hj
          rcases List.mem_cons.mp hj with hj2 | hj2
          · subst hj2
            refine ⟨⟨0, ?_⟩, hbound.1, hbound.2, Option.isNone_iff_eq_none.mp hempty⟩
            simp [stepN, hs]
          · obtain ⟨⟨n, hn⟩, h1, h2, h3⟩ := ih m j hj2
            refine ⟨⟨n + 1, ?_⟩, h1, h2, h3⟩
            simp only [stepN, hs, Option.some_bind]
            simpa [stepN] using hn
        · rw [if_neg hempty] at hj
          obtain ⟨⟨n, hn⟩, h1, h2, h3⟩ := ih m j hj
          refine ⟨⟨n + 1, ?_⟩, h1, h2, h3⟩
          simp only [stepN, hs, Option.some_bind]
          simpa [stepN] using hn

lemma scan_mem_backward (b : Board) (d : Direction) :
    ∀ (n fuel : Nat) (i j : Index), n < fuel →
      i.row < b.numRows → i.column < b.numColumns →
      stepN d (n + 1) i = some j →
      j.row < b.numRows → j.column < b.numColumns → numberAt b j = none →
      j ∈ emptyIndicesScan b d fuel i := by
  intro n
  induction n with
  | zero =>
    intro fuel i j hn hir hic hstep hjr hjc hempty
    rcases fuel with _ | fuel
    · omega
    · simp only [stepN] at hstep
      rcases hs : i.step d with _ | m
      · rw [hs] at hstep
        simp at hstep
      · rw [hs] at hstep
        simp only [Option.some_bind, stepN, Option.some.injEq] at hstep
        subst hstep
        simp only [emptyIndicesScan, hs]
        rw [if_neg (by omega), if_pos (by simp [hempty])]
        exact List.mem_cons_self _ _
  | succ n ih =>
    intro fuel i j hn hir hic hstep hjr hjc hempty
    rcases fuel with _ | fuel
    · omega
    · simp only [stepN] at hstep
      rcases hs : i.step d with _ | m
      · rw [hs] at hstep
        simp at hstep
      · rw [hs] at hstep
        simp only [Option.some_bind] at hstep
        obtain ⟨hm1, hm2⟩ := (step_some_iff i d m).mp hs
        obtain ⟨hj1, hj2⟩ := stepN_coords d (n + 1) m j hstep
        have hmr : m.row < b.numRows := by
          rcases rowDelta_cases d with h | h | h <;> rw [h] at hm1 hj1 <;> omega
        have hmc : m.column < b.numColumns := by
          rcases colDelta_cases d with h | h | h <;> rw [h] at hm2 hj2 <;> omega
        simp only [emptyIndicesScan, hs]
        rw [if_neg (by omega)]
        by_cases hmempty : (numberAt b m).isNone
        · rw [if_pos hmempty]
          exact List.mem_cons_of_mem _ (ih fuel m j (by omega) hmr hmc hstep hjr hjc hempty)
        · rw [if_neg hmempty]
          exact ih fuel m j (by omega) hmr hmc hstep hjr hjc hempty

lemma stepN_fuel_bound (b : Board) (d : Direction) (n : Nat) (i j : Index)
    (hir : i.row < b.numRows) (hic : i.column < b.numColumns)
    (hstep : stepN d (n + 1) i = some j)
    (hjr : j.row < b.numRows) (hjc : j.column < b.numColumns) :
    n < b.numRows + b.numColumns := by
  have hne := delta_ne_zero d
  obtain ⟨hj1, hj2⟩ := stepN_coords d (n + 1) i j hstep
  rcases rowDelta_cases d with h | h | h <;>
    rcases colDelta_cases d with h2 | h2 | h2 <;>
    rw [h] at hj1 hne <;>
    rw [h2] at hj2 hne <;>
    omega

/-- C2, amended: a position is a candidate of the ray scan exactly when it
is reachable from the start by one or more steps along the direction, lies
within the board, and is unassigned.  The scan stops only at the board
boundary; an already-numbered cell on the ray does not block it, so
unassigned positions beyond a numbered cell are still candidates. -/
theorem getEmptyIndicesInDirection_mem (b : Board) (i : Index) (d : Direction) (j : Index)
    (hir : i.row < b.numRows) (hic : i.column < b.numColumns) :
    j ∈ getEmptyIndicesInDirection b i d ↔
      ((∃ n : Nat, stepN d (n + 1) i = some j) ∧
        j.row < b.numRows ∧ j.column < b.numColumns ∧ numberAt b j = none) := by
  constructor
  · intro hj
    exact scan_mem_forward b d (b.numRows + b.numColumns) i j hj
  · rintro ⟨⟨n, hstep⟩, hjr, hjc, hempty⟩
    exact scan_mem_backward b d n (b.numRows + b.numColumns) i j
      (stepN_fuel_bound b d n i j hir hic hstep hjr hjc) hir hic hstep hjr hjc hempty

/-- Witness for C2's amended theorem: on the source's test board, (2, 0) —
two southwest steps from (0, 2), past the numbered cell (1, 1) — is in
bounds, unassigned and a candidate. -/
theorem getEmptyIndicesInDirection_mem_witness :
    (∃ n : Nat, stepN .southwest (n + 1) ⟨0, 2⟩ = some ⟨2, 0⟩) ∧
      (Index.mk 2 0).row < testBoard.numRows ∧
      (Index.mk 2 0).column < testBoard.numColumns ∧
      numberAt testBoard ⟨2, 0⟩ = none :=
  (getEmptyIndicesInDirection_mem testBoard ⟨0, 2⟩ .southwest ⟨2, 0⟩
    (by decide) (by decide)).mp (by decide)

/-- Counterexample to C2 as stated: on the source's own test board the
southwest ray from (0, 2) first reaches the numbered cell (1, 1), and the
position (2, 0) beyond it is nevertheless collected as a candidate — the
scan does not stop at the first numbered cell. -/
theorem scanPastNumberedCell :
    Index.step ⟨0, 2⟩ .southwest = some ⟨1, 1⟩ ∧
      (numberAt testBoard ⟨1, 1⟩).isSome ∧
      Index.step ⟨1, 1⟩ .southwest = some ⟨2, 0⟩ ∧
      Index.mk 2 0 ∈ getEmptyIndicesInDirection testBoard ⟨0, 2⟩ .southwest :=
  ⟨rfl, rfl, rfl, by decide⟩

/-- C3: when the search space is exhausted — here, the cell anchoring
number 1 carries an arrow whose ray holds no reachable unassigned cell, and
2 is not a clue — `solve` (modelled from the spec, the source's search loop
being unimplemented) returns the `ImpossibleBoard` error (the spec's
`NoSolution`), not success and not an internal error. -/
theorem solveSpec_noSolution (b : Board) (i : Index) (d : Direction)
    (hN : 2 ≤ b.numElements)
    (h1 : lookupNum 1 (createNumToIndex b) = some i)
    (h2 : lookupNum 2 (createNumToIndex b) = none)
    (hp : pointerAt b i = some (.go d))
    (hray : getEmptyIndicesInDirection b i d = []) :
    solveSpec b = .error .impossibleBoard := by
  obtain ⟨m, hm⟩ : ∃ m, b.numElements = m + 1 + 1 := ⟨b.numElements - 2, by omega⟩
  obtain ⟨c, hc, hcp⟩ : ∃ c, cellAt b i = some c ∧ c.pointer = .go d := by
    unfold pointerAt at hp
    rcases hcell : cellAt b i with _ | c0
    · rw [hcell] at hp
      exact Option.noConfusion hp
    · rw [hcell] at hp
      simp only [Option.some.injEq] at hp
      exact ⟨c0, rfl, hp⟩
  have hl1 : lookupNum 1 (solverNew b).numToIndex = some i := h1
  have hl2 : lookupNum 2 (solverNew b).numToIndex = none := h2
  have hcand : candidatesSpec (solverNew b) 2 = .ok [] := by
    have e1 : lookupNum (2 - 1) (solverNew b).numToIndex = some i := h1
    have e2 : cellAt (solverNew b).board i = some c := hc
    have e3 : getEmptyIndicesInDirection (solverNew b).board i d = [] := hray
    simp only [candidatesSpec, getPossibleIndicesFromPrev, e1, e2, hcp, e3]
  have hff : finalFilter (solverNew b) 2 [] = [] := by
    unfold finalFilter
    split <;> simp
  have step2 : assignSpec b.numElements 2 (solverNew b) = .ok none := by
    rw [hm]
    simp only [assignSpec, assignStep]
    rw [if_neg (show ¬ ((solverNew b).board.numElements < 2) from by
      show ¬ (b.numElements < 2)
      omega)]
    simp only [hl2, Option.isSome_none, Bool.false_eq_true, if_false]
    simp only [hcand, hff, tryEach]
  have step1 : assignSpec (b.numElements + 1) 1 (solverNew b) = .ok none := by
    simp only [assignSpec, assignStep]
    rw [if_neg (show ¬ ((solverNew b).board.numElements < 1) from by
      show ¬ (b.numElements < 1)
      omega)]
    simp only [hl1, Option.isSome_some, if_true]
    norm_num
    exact step2
  unfold solveSpec
  rw [step1]

/-- Witness for C3: the spec's scenario-5 board, whose arrow at (0, 0)
points north off the board edge, yields `ImpossibleBoard`. -/
theorem solveSpec_noSolution_witness :
    solveSpec noSolutionBoard = .error .impossibleBoard :=
  solveSpec_noSolution noSolutionBoard ⟨0, 0⟩ .north (by decide) rfl rfl rfl rfl
